import Mathlib

/-!
Verification of the indexed-inode file system, directory layer, demand-paging
engine and system-call surface of this repository, as a shallow embedding in
Lean 4.  Each definition translates one function of the C source
(`filesys/directory.c` with the inode layer, `filesys/filesys.c`,
`userprog/syscall.c` with the page-fault resolver, and the vm/swap/page files).
Machine integers are modelled as `Nat`; the block device is a total function
from sector number and byte index to byte value; heap-allocation failures
(`malloc`/`calloc` returning NULL) are not modelled, so every bounce buffer and
scratch block exists.  Code of the repository that is not part of the sources
(free-map and bitmap primitives, `file.c` accessors) is modelled from the
specification and marked as such in its doc comment.
-/

namespace OS

/-- A disk is a total map from sector number and byte index to byte value.
Only byte indices below 512 are ever written (`BLOCK_SECTOR_SIZE`). -/
abbrev Disk := Nat → Nat → Nat

/-- On-disk inode (`struct inode_disk`): 12 index words, length, magic,
parent directory sector and directory flag.  The unused padding words are
not represented; `data_blocks` is total but only indices 0..11 are used. -/
structure InodeDisk where
  data_blocks : Nat → Nat
  length : Nat
  magic : Nat
  parent_directory : Nat
  is_directory : Nat

/-- Number of sectors for a file of `size` bytes: `DIV_ROUND_UP (size, 512)`. -/
def bytes_to_sectors (size : Nat) : Nat := (size + 511) / 512

/-- Read the `i`-th 32-bit little-endian word stored in sector `s`
(the view the C code takes of an indirect block via a `block_sector_t *`). -/
def sectorWord (disk : Disk) (s i : Nat) : Nat :=
  disk s (4 * i) + 256 * disk s (4 * i + 1) +
    65536 * disk s (4 * i + 2) + 16777216 * disk s (4 * i + 3)

/-- `block_write`: replace the 512 bytes of sector `s` with `content`. -/
def writeSector (disk : Disk) (s : Nat) (content : Nat → Nat) : Disk :=
  fun s2 j => if s2 = s ∧ j < 512 then content j else disk s2 j

/-- Byte image of a 128-word block, as `block_write` stores it (little endian). -/
def encodeWords (blk : Nat → Nat) (j : Nat) : Nat :=
  blk (j / 4) / 256 ^ (j % 4) % 256

/-- Byte image of an on-disk inode as written by `block_write (fs_device,
sector, disk_inode)`: 12 index words, then length, magic, parent and
directory flag, with the unused words zero. -/
def encodeInode (d : InodeDisk) (j : Nat) : Nat :=
  if j < 48 then d.data_blocks (j / 4) / 256 ^ (j % 4) % 256
  else if j < 52 then d.length / 256 ^ (j - 48) % 256
  else if j < 56 then d.magic / 256 ^ (j - 52) % 256
  else if j < 60 then d.parent_directory / 256 ^ (j - 56) % 256
  else if j < 64 then d.is_directory / 256 ^ (j - 60) % 256
  else 0

/-- Modelled from the spec: the free-sector map (`free-map.c` is not among the
sources).  A bitmap of `size` sectors; `free s = true` means sector `s` is
free. -/
structure FreeMap where
  free : Nat → Bool
  size : Nat

/-- Modelled from the spec: `free_map_count`, the number of free sectors. -/
def free_map_count (fm : FreeMap) : Nat :=
  ((List.range fm.size).filter fm.free).length

/-- Modelled from the spec: `free_map_allocate (1, &out)` reserves the first
free sector and stores it in `out`; on failure `out` is left unchanged
(the model returns `none` and the caller keeps its previous value). -/
def free_map_allocate (fm : FreeMap) : Option Nat × FreeMap :=
  match (List.range fm.size).find? fm.free with
  | some s => (some s, ⟨fun i => if i = s then false else fm.free i, fm.size⟩)
  | none => (none, fm)

/-- `byte_to_sector`: the sector holding byte offset `pos` of the inode,
through the 10 direct / 128 single-indirect / 128x128 double-indirect index.
Returns `none` (the C `-1` sentinel) when `pos > length`. -/
def byte_to_sector (disk : Disk) (d : InodeDisk) (pos length : Nat) : Option Nat :=
  if pos ≤ length then
    let sector_index := pos / 512
    if sector_index < 10 then some (d.data_blocks sector_index)
    else if sector_index < 138 then
      some (sectorWord disk (d.data_blocks 10) (sector_index - 10))
    else
      let si2 := sector_index - 138
      let sl := sectorWord disk (d.data_blocks 11) (si2 / 128)
      some (sectorWord disk sl (si2 % 128))
  else none

/-- `check_length`: enough free sectors for `num_sectors` data sectors plus
the indirect blocks the C code accounts for. -/
def check_length (fm : FreeMap) (num_sectors : Nat) : Bool :=
  let t1 := if num_sectors > 10 then num_sectors + 1 else num_sectors
  let t2 := if num_sectors > 138 then t1 + 1 + (num_sectors - 138 + 127) / 128 else t1
  decide (t2 ≤ free_map_count fm)

/-- The data-sector allocation loop shared by `extend` (direct blocks) and
`allocate_first_level`: for each index in the list, allocate a fresh sector,
record it in the block at that index (keeping the old value if allocation
fails, as `free_map_allocate` leaves its output untouched then) and fill the
sector with zeros. -/
def allocDataLoop (disk : Disk) (fm : FreeMap) (blk : Nat → Nat) :
    List Nat → Disk × FreeMap × (Nat → Nat)
  | [] => (disk, fm, blk)
  | index :: rest =>
    let r := free_map_allocate fm
    let blk1 := fun i => if i = index then (r.1.getD (blk index)) else blk i
    let disk1 := writeSector disk (blk1 index) (fun _ => 0)
    allocDataLoop disk1 r.2 blk1 rest

/-- `allocate_first_level`: fill one single-indirect block starting at linear
index `starting`, allocating the block itself when `starting = 0` (reading
the existing block from disk otherwise), then write the block back.  Returns
the updated disk, free map, block sector, remaining sector count and
remaining start offset, exactly as the C function updates its out
parameters. -/
def allocate_first_level (disk : Disk) (fm : FreeMap) (sector num_sectors starting : Nat) :
    Disk × FreeMap × Nat × Nat × Nat :=
  let num_fl := min num_sectors 128
  if starting < 128 then
    let alloc :=
      if starting = 0 then
        let r := free_map_allocate fm
        (r.1.getD sector, r.2, fun _ => (0 : Nat))
      else (sector, fm, fun i => sectorWord disk sector i)
    let filled := allocDataLoop disk alloc.2.1 alloc.2.2 (List.range' starting (num_fl - starting))
    let disk2 := writeSector filled.1 alloc.1 (encodeWords filled.2.2)
    (disk2, filled.2.1, alloc.1, num_sectors - num_fl, 0)
  else
    (disk, fm, sector, num_sectors - num_fl, starting - 128)

/-- The loop of `extend` over the entries of the double-indirect block:
each entry is filled by `allocate_first_level`. -/
def slLoop (disk : Disk) (fm : FreeMap) (sl : Nat → Nat) (total starting : Nat) :
    List Nat → Disk × FreeMap × (Nat → Nat) × Nat × Nat
  | [] => (disk, fm, sl, total, starting)
  | i :: rest =>
    let r := allocate_first_level disk fm (sl i) total starting
    slLoop r.1 r.2.1 (fun k => if k = i then r.2.2.1 else sl k) r.2.2.2.1 r.2.2.2.2 rest

/-- `extend`: allocate zero-filled data sectors for linear indices
`starting_sector ..< total_sectors`, recording them in the direct slots, the
single-indirect block and the double-indirect block as needed. -/
def extend (d : InodeDisk) (total_sectors starting_sector : Nat) (disk : Disk) (fm : FreeMap) :
    InodeDisk × Disk × FreeMap :=
  let num_direct := min total_sectors 10
  let direct := allocDataLoop disk fm d.data_blocks
      (List.range' starting_sector (num_direct - starting_sector))
  let starting1 := if starting_sector < 10 then 0 else starting_sector - 10
  let total1 := total_sectors - num_direct
  let d1 : InodeDisk := { d with data_blocks := direct.2.2 }
  if total1 > 0 then
    let fl := allocate_first_level direct.1 direct.2.1 (d1.data_blocks 10) total1 starting1
    let d2 : InodeDisk := { d1 with data_blocks := fun i => if i = 10 then fl.2.2.1 else d1.data_blocks i }
    let total2 := fl.2.2.2.1
    let starting2 := fl.2.2.2.2
    if total2 > 0 then
      let slInit :=
        if starting2 = 0 then
          let r := free_map_allocate fl.2.1
          (r.1.getD (d2.data_blocks 11), r.2, fun _ => (0 : Nat))
        else (d2.data_blocks 11, fl.2.1, fun i => sectorWord fl.1 (d2.data_blocks 11) i)
      let num_sl := (total2 + 127) / 128
      let run := slLoop fl.1 slInit.2.1 slInit.2.2 total2 starting2 (List.range num_sl)
      let disk4 := writeSector run.1 slInit.1 (encodeWords run.2.2.1)
      let d3 : InodeDisk := { d2 with data_blocks := fun i => if i = 11 then slInit.1 else d2.data_blocks i }
      (d3, disk4, run.2.1)
    else (d2, fl.1, fl.2.1)
  else (d1, direct.1, direct.2.1)

/-- The growth phase of `inode_write_at`: when the write needs more sectors
than are currently allocated, `extend` from the current sector count to the
final one; otherwise nothing happens. -/
def writePrepare (d : InodeDisk) (disk : Disk) (fm : FreeMap) (size offset : Nat) :
    InodeDisk × Disk × FreeMap :=
  let final_sectors := bytes_to_sectors (offset + size)
  let current_sectors := bytes_to_sectors d.length
  if final_sectors > current_sectors then extend d final_sectors current_sectors disk fm
  else (d, disk, fm)

/-- The chunk size of one loop iteration of `inode_read_at`/`inode_write_at`:
`min (size, min (bytes left in the inode, bytes left in the sector))`. -/
def chunkOf (limit size offset : Nat) : Nat :=
  min size (min (limit - offset) (512 - offset % 512))

/-- One sector update of the write loop: a full aligned sector is written
directly from the buffer; otherwise the sector is read into a bounce buffer,
the chunk is overlaid and the whole sector written back (the `memset` arm of
the C code is kept although it is unreachable in the partial path). -/
def writeChunk (disk : Disk) (s sector_ofs chunk : Nat) (buf : Nat → Nat) (written : Nat) : Disk :=
  if sector_ofs = 0 ∧ chunk = 512 then
    writeSector disk s (fun j => buf (written + j))
  else
    let base := if 0 < sector_ofs ∨ chunk < 512 - sector_ofs then disk s else fun _ => (0 : Nat)
    writeSector disk s (fun j =>
      if sector_ofs ≤ j ∧ j < sector_ofs + chunk then buf (written + (j - sector_ofs)) else base j)

/-- The sector-by-sector copy loop of `inode_write_at`.  The fuel argument is
an upper bound on the number of iterations (each iteration writes at least
one byte, so `size` suffices); `fsize` is the C `file_size` local. -/
def writeLoopF (d : InodeDisk) (fsize : Nat) (buf : Nat → Nat) :
    Nat → Nat → Nat → Nat → Disk → Nat × Disk
  | 0, _, _, written, disk => (written, disk)
  | fuel + 1, size, offset, written, disk =>
    if size = 0 then (written, disk) else
    let s := (byte_to_sector disk d offset fsize).getD (2 ^ 32 - 1)
    let chunk := chunkOf fsize size offset
    if chunk = 0 then (written, disk) else
    writeLoopF d fsize buf fuel (size - chunk) (offset + chunk) (written + chunk)
      (writeChunk disk s (offset % 512) chunk buf written)

/-- `inode_write_at (inode, buffer, size, offset)` on an inode whose
`deny_write_cnt` is `deny`, in-memory image `d`, stored at sector `sector`.
Returns the byte count written and the updated inode image, disk and free
map.  Mirrors the C control flow: deny-write check, free-map pre-check and
`extend` for growing writes, the copy loop, and the two-phase publication of
the new length followed by the inode-sector write-back. -/
def inode_write_at (sector deny : Nat) (d : InodeDisk) (disk : Disk) (fm : FreeMap)
    (buf : Nat → Nat) (size offset : Nat) : Nat × InodeDisk × Disk × FreeMap :=
  if deny > 0 then (0, d, disk, fm) else
  let current_length := d.length
  let new_size := offset + size
  let file_size := max current_length new_size
  let final_sectors := bytes_to_sectors new_size
  let current_sectors := bytes_to_sectors current_length
  if final_sectors > current_sectors ∧ ¬ check_length fm (final_sectors - current_sectors) then
    (0, d, disk, fm)
  else
    let prep := writePrepare d disk fm size offset
    let run := writeLoopF prep.1 file_size buf size size offset 0 prep.2.1
    if current_length < new_size then
      let d2 : InodeDisk := { prep.1 with length := new_size }
      (run.1, d2, writeSector run.2 sector (encodeInode d2), prep.2.2)
    else (run.1, prep.1, run.2, prep.2.2)

/-- The copy loop of `inode_read_at`, producing the list of bytes read.  The
full-sector and bounce paths of the C code copy the same bytes, namely
`disk s (sector_ofs + t)` for `t < chunk`. -/
def readLoopF (disk : Disk) (d : InodeDisk) : Nat → Nat → Nat → List Nat
  | 0, _, _ => []
  | fuel + 1, size, offset =>
    if size = 0 then [] else
    let s := (byte_to_sector disk d offset d.length).getD (2 ^ 32 - 1)
    let chunk := chunkOf d.length size offset
    if chunk = 0 then [] else
    (List.range chunk).map (fun t => disk s (offset % 512 + t)) ++
      readLoopF disk d fuel (size - chunk) (offset + chunk)

/-- `inode_read_at (inode, buffer, size, offset)`: the bytes copied into the
caller's buffer; the C return value is the length of this list. -/
def inode_read_at (disk : Disk) (d : InodeDisk) (size offset : Nat) : List Nat :=
  readLoopF disk d size size offset

/-! Arithmetic facts about chunks and byte positions. -/

lemma chunkOf_pos {limit size offset : Nat} (hs : size ≠ 0) (hb : offset + size ≤ limit) :
    0 < chunkOf limit size offset := by
  unfold chunkOf
  have h1 : 0 < size := Nat.pos_of_ne_zero hs
  have h2 : 0 < limit - offset := by omega
  have h3 : offset % 512 < 512 := Nat.mod_lt _ (by omega)
  have h4 : 0 < 512 - offset % 512 := by omega
  exact lt_min h1 (lt_min h2 h4)

lemma chunkOf_le_size (limit size offset : Nat) : chunkOf limit size offset ≤ size :=
  min_le_left _ _

lemma chunkOf_le_left (limit size offset : Nat) :
    offset % 512 + chunkOf limit size offset ≤ 512 := by
  have h1 : chunkOf limit size offset ≤ 512 - offset % 512 :=
    le_trans (min_le_right _ _) (min_le_right _ _)
  have h3 : offset % 512 < 512 := Nat.mod_lt _ (by omega)
  omega

lemma addWithin (a k : Nat) (h : a % 512 + k < 512) :
    (a + k) / 512 = a / 512 ∧ (a + k) % 512 = a % 512 + k := by
  have h0 := Nat.div_add_mod a 512
  constructor
  · conv_lhs => rw [← h0, Nat.add_assoc]
    rw [Nat.mul_add_div (by omega), Nat.div_eq_of_lt h]
    omega
  · conv_lhs => rw [← h0, Nat.add_assoc]
    rw [Nat.mul_add_mod, Nat.mod_eq_of_lt h]

lemma modLtOfDivEq {a b : Nat} (hab : a < b) (hd : a / 512 = b / 512) :
    a % 512 < b % 512 := by
  have h1 := Nat.div_add_mod a 512
  have h2 := Nat.div_add_mod b 512
  omega

/-- The write loop writes every byte when the requested range fits in the
file size, returning `written + size`. -/
lemma writeLoopF_ret (d : InodeDisk) (fsize : Nat) (buf : Nat → Nat) :
    ∀ fuel size offset written disk, size ≤ fuel → offset + size ≤ fsize →
    (writeLoopF d fsize buf fuel size offset written disk).1 = written + size := by
  intro fuel
  induction fuel with
  | zero =>
    intro size offset written disk hs _
    have : size = 0 := Nat.le_zero.mp hs
    subst this
    simp [writeLoopF]
  | succ n ih =>
    intro size offset written disk hs hb
    by_cases h0 : size = 0
    · subst h0; simp [writeLoopF]
    · have hc := chunkOf_pos h0 hb
      have hcs := chunkOf_le_size fsize size offset
      rw [writeLoopF, if_neg h0, if_neg (Nat.pos_iff_ne_zero.mp hc)]
      rw [ih _ _ _ _ (by omega) (by omega)]
      omega

lemma bytes_to_sectors_mono {a b : Nat} (h : a ≤ b) :
    bytes_to_sectors a ≤ bytes_to_sectors b :=
  Nat.div_le_div_right (by omega)

/-- Claim C2: for every write with `offset + size ≤ (10+128+16384)*512`,
`inode_write_at` either writes all `size` bytes and returns `size`, or
returns 0 and leaves the inode's published `length` unchanged; no outcome
returns a partial byte count or changes the length without completing the
write. -/
theorem inode_write_all_or_nothing (sector deny : Nat) (d : InodeDisk) (disk : Disk)
    (fm : FreeMap) (buf : Nat → Nat) (size offset : Nat)
    (_hcap : offset + size ≤ 16522 * 512) :
    (inode_write_at sector deny d disk fm buf size offset).1 = size ∨
    ((inode_write_at sector deny d disk fm buf size offset).1 = 0 ∧
     (inode_write_at sector deny d disk fm buf size offset).2.1.length = d.length) := by
  unfold inode_write_at
  by_cases hd : deny > 0
  · rw [if_pos hd]; right; exact ⟨rfl, rfl⟩
  · rw [if_neg hd]
    by_cases hck : bytes_to_sectors (offset + size) > bytes_to_sectors d.length ∧
        ¬ check_length fm (bytes_to_sectors (offset + size) - bytes_to_sectors d.length)
    · rw [if_pos hck]; right; exact ⟨rfl, rfl⟩
    · rw [if_neg hck]
      left
      have hret := writeLoopF_ret (writePrepare d disk fm size offset).1
        (max d.length (offset + size)) buf size size offset 0
        (writePrepare d disk fm size offset).2.1 le_rfl (le_max_right _ _)
      split
      · simpa using hret
      · simpa using hret

/-- Witness for C2 at a concrete inode and write. -/
theorem inode_write_all_or_nothing_witness :
    (0 + 2 ≤ 16522 * 512) ∧
    ((inode_write_at 1 0 ⟨fun i => if i = 0 then 2 else 0, 4, 0, 0, 0⟩ (fun _ _ => 0)
        ⟨fun _ => true, 30⟩ (fun i => 65 + i) 2 0).1 = 2 ∨
     ((inode_write_at 1 0 ⟨fun i => if i = 0 then 2 else 0, 4, 0, 0, 0⟩ (fun _ _ => 0)
        ⟨fun _ => true, 30⟩ (fun i => 65 + i) 2 0).1 = 0 ∧
      (inode_write_at 1 0 ⟨fun i => if i = 0 then 2 else 0, 4, 0, 0, 0⟩ (fun _ _ => 0)
        ⟨fun _ => true, 30⟩ (fun i => 65 + i) 2 0).2.1.length = 4)) :=
  ⟨by omega,
   inode_write_all_or_nothing 1 0 ⟨fun i => if i = 0 then 2 else 0, 4, 0, 0, 0⟩ (fun _ _ => 0)
     ⟨fun _ => true, 30⟩ (fun i => 65 + i) 2 0 (by omega)⟩

/-! Sequences of inode operations, for the length-monotonicity claim. -/

/-- An operation on an open inode: `inode_read_at` or `inode_write_at`. -/
inductive InodeOp where
  | read (size offset : Nat)
  | write (buf : Nat → Nat) (size offset : Nat)

/-- The state of an open inode together with the disk and free map. -/
structure InodeSt where
  sector : Nat
  deny : Nat
  d : InodeDisk
  disk : Disk
  fm : FreeMap

/-- Apply one operation.  `inode_read_at` mutates nothing; `inode_write_at`
updates the inode image, the disk and the free map. -/
def stepOp (st : InodeSt) : InodeOp → InodeSt
  | .read _ _ => st
  | .write buf size offset =>
    let r := inode_write_at st.sector st.deny st.d st.disk st.fm buf size offset
    { st with d := r.2.1, disk := r.2.2.1, fm := r.2.2.2 }

/-- Apply a sequence of operations in order. -/
def runOps (st : InodeSt) (ops : List InodeOp) : InodeSt := ops.foldl stepOp st

lemma write_length_cases (st : InodeSt) (buf : Nat → Nat) (size offset : Nat) :
    (stepOp st (InodeOp.write buf size offset)).d.length = st.d.length ∨
    (st.d.length < offset + size ∧
      (stepOp st (InodeOp.write buf size offset)).d.length = offset + size) := by
  have hstep : (stepOp st (InodeOp.write buf size offset)).d.length =
      (inode_write_at st.sector st.deny st.d st.disk st.fm buf size offset).2.1.length := rfl
  rw [hstep]
  unfold inode_write_at
  by_cases hd : st.deny > 0
  · rw [if_pos hd]; left; rfl
  · rw [if_neg hd]
    by_cases hck : bytes_to_sectors (offset + size) > bytes_to_sectors st.d.length ∧
        ¬ check_length st.fm (bytes_to_sectors (offset + size) - bytes_to_sectors st.d.length)
    · rw [if_pos hck]; left; rfl
    · rw [if_neg hck]
      by_cases hg : st.d.length < offset + size
      · rw [if_pos hg]; right; exact ⟨hg, rfl⟩
      · rw [if_neg hg]
        left
        have hmono : bytes_to_sectors (offset + size) ≤ bytes_to_sectors st.d.length :=
          bytes_to_sectors_mono (by omega)
        show (writePrepare st.d st.disk st.fm size offset).1.length = st.d.length
        unfold writePrepare
        rw [if_neg (by omega)]

lemma stepOp_mono (st : InodeSt) (op : InodeOp) :
    st.d.length ≤ (stepOp st op).d.length := by
  cases op with
  | read size offset => exact le_rfl
  | write buf size offset =>
    rcases write_length_cases st buf size offset with h | ⟨h1, h2⟩
    · omega
    · omega

/-- Claim C3: the published `length` of an inode never decreases across any
sequence of `inode_read_at` and `inode_write_at` operations (from any state,
in particular the one `inode_create` publishes), and a write updates the
length only when `offset + size` exceeds the current length, and then only
to that value. -/
theorem inode_length_monotone (st : InodeSt) (ops : List InodeOp) :
    st.d.length ≤ (runOps st ops).d.length ∧
    ∀ buf size offset,
      (stepOp st (InodeOp.write buf size offset)).d.length = st.d.length ∨
      (st.d.length < offset + size ∧
        (stepOp st (InodeOp.write buf size offset)).d.length = offset + size) := by
  constructor
  · induction ops generalizing st with
    | nil => exact le_rfl
    | cons op rest ih =>
      calc st.d.length ≤ (stepOp st op).d.length := stepOp_mono st op
        _ ≤ (runOps (stepOp st op) rest).d.length := ih (stepOp st op)
        _ = (runOps st (op :: rest)).d.length := rfl
  · exact write_length_cases st

/-! Machinery for the write/read round trip (claim C1).  `byte_to_sector`
reads the disk only at the single-indirect block, the double-indirect block
and the sectors the double-indirect block names; those are the meta sectors
of an inode.  Data sectors that avoid them leave the resolution unchanged. -/

/-- The sectors `byte_to_sector` may read for inode `d` over base disk
`disk0`. -/
def metaSec (disk0 : Disk) (d : InodeDisk) (s : Nat) : Bool :=
  s == d.data_blocks 10 || s == d.data_blocks 11 ||
    (List.range 128).any (fun k => s == sectorWord disk0 (d.data_blocks 11) k)

lemma sectorWord_congr {disk disk0 : Disk} {d : InodeDisk} {s : Nat} (i : Nat)
    (hmeta : metaSec disk0 d s = true)
    (h : ∀ s2 j, metaSec disk0 d s2 = true → disk s2 j = disk0 s2 j) :
    sectorWord disk s i = sectorWord disk0 s i := by
  unfold sectorWord
  rw [h s _ hmeta, h s _ hmeta, h s _ hmeta, h s _ hmeta]

lemma metaSec_fl (disk0 : Disk) (d : InodeDisk) : metaSec disk0 d (d.data_blocks 10) = true := by
  simp [metaSec]

lemma metaSec_sl (disk0 : Disk) (d : InodeDisk) : metaSec disk0 d (d.data_blocks 11) = true := by
  simp [metaSec]

lemma metaSec_word (disk0 : Disk) (d : InodeDisk) (k : Nat) (hk : k < 128) :
    metaSec disk0 d (sectorWord disk0 (d.data_blocks 11) k) = true := by
  simp only [metaSec, Bool.or_eq_true, List.any_eq_true]
  right
  exact ⟨k, List.mem_range.mpr hk, by simp⟩

/-- Two disks that agree on the meta sectors of `d` resolve every in-capacity
byte position identically. -/
lemma byte_to_sector_congr (disk disk0 : Disk) (d : InodeDisk) (pos L : Nat)
    (hcap : pos < 16522 * 512)
    (h : ∀ s2 j, metaSec disk0 d s2 = true → disk s2 j = disk0 s2 j) :
    byte_to_sector disk d pos L = byte_to_sector disk0 d pos L := by
  unfold byte_to_sector
  by_cases hp : pos ≤ L
  · rw [if_pos hp, if_pos hp]
    by_cases h10 : pos / 512 < 10
    · rw [if_pos h10, if_pos h10]
    · rw [if_neg h10, if_neg h10]
      by_cases h138 : pos / 512 < 138
      · rw [if_pos h138, if_pos h138]
        rw [sectorWord_congr _ (metaSec_fl disk0 d) h]
      · rw [if_neg h138, if_neg h138]
        have hsi : pos / 512 < 16522 := by
          have := Nat.div_le_div_right (c := 512) (Nat.le_of_lt hcap)
          omega
        have hk : (pos / 512 - 138) / 128 < 128 := by omega
        show some (sectorWord disk (sectorWord disk (d.data_blocks 11) ((pos / 512 - 138) / 128))
              ((pos / 512 - 138) % 128)) =
            some (sectorWord disk0 (sectorWord disk0 (d.data_blocks 11) ((pos / 512 - 138) / 128))
              ((pos / 512 - 138) % 128))
        rw [sectorWord_congr _ (metaSec_sl disk0 d) h]
        rw [sectorWord_congr _ (metaSec_word disk0 d _ hk) h]
  · rw [if_neg hp, if_neg hp]

/-- `byte_to_sector` depends on the position only through its sector index. -/
lemma byte_to_sector_div (disk : Disk) (d : InodeDisk) {p1 p2 L : Nat}
    (hdiv : p1 / 512 = p2 / 512) (h1 : p1 ≤ L) (h2 : p2 ≤ L) :
    byte_to_sector disk d p1 L = byte_to_sector disk d p2 L := by
  unfold byte_to_sector
  rw [if_pos h1, if_pos h2, hdiv]

/-- Pointwise effect of one chunk write: bytes of sector `s` inside
`[sector_ofs, sector_ofs + chunk)` come from the buffer, everything else is
unchanged (the bounce read-modify-write preserves the other bytes). -/
lemma writeChunk_apply (disk : Disk) (s sector_ofs chunk : Nat) (buf : Nat → Nat)
    (written : Nat) (hfit : sector_ofs + chunk ≤ 512) (s2 j : Nat) :
    writeChunk disk s sector_ofs chunk buf written s2 j =
      if s2 = s ∧ sector_ofs ≤ j ∧ j < sector_ofs + chunk
      then buf (written + (j - sector_ofs)) else disk s2 j := by
  unfold writeChunk writeSector
  by_cases hdirect : sector_ofs = 0 ∧ chunk = 512
  · rw [if_pos hdirect]
    obtain ⟨h0, h512⟩ := hdirect
    subst h0; subst h512
    show (if s2 = s ∧ j < 512 then buf (written + j) else disk s2 j) =
        if s2 = s ∧ 0 ≤ j ∧ j < 0 + 512 then buf (written + (j - 0)) else disk s2 j
    by_cases hs : s2 = s
    · by_cases hj : j < 512
      · rw [if_pos (⟨hs, hj⟩ : s2 = s ∧ j < 512),
            if_pos (⟨hs, Nat.zero_le j, by omega⟩ : s2 = s ∧ 0 ≤ j ∧ j < 0 + 512),
            Nat.sub_zero]
      · rw [if_neg (show ¬(s2 = s ∧ j < 512) from fun hc => hj hc.2),
            if_neg (show ¬(s2 = s ∧ 0 ≤ j ∧ j < 0 + 512) from fun hc => hj hc.2.2)]
    · rw [if_neg (show ¬(s2 = s ∧ j < 512) from fun hc => hs hc.1),
          if_neg (show ¬(s2 = s ∧ 0 ≤ j ∧ j < 0 + 512) from fun hc => hs hc.1)]
  · rw [if_neg hdirect]
    have hbase : (0 < sector_ofs ∨ chunk < 512 - sector_ofs) := by
      by_cases h0 : sector_ofs = 0
      · subst h0
        right
        rcases Nat.lt_or_ge chunk 512 with h | h
        · omega
        · exact absurd ⟨rfl, by omega⟩ hdirect
      · left; omega
    rw [if_pos hbase]
    show (if s2 = s ∧ j < 512 then
            (if sector_ofs ≤ j ∧ j < sector_ofs + chunk
             then buf (written + (j - sector_ofs)) else disk s j)
          else disk s2 j) = _
    by_cases hs : s2 = s
    · by_cases hin : sector_ofs ≤ j ∧ j < sector_ofs + chunk
      · have hj : j < 512 := by omega
        rw [if_pos (⟨hs, hj⟩ : s2 = s ∧ j < 512), if_pos hin,
            if_pos (⟨hs, hin.1, hin.2⟩ : s2 = s ∧ sector_ofs ≤ j ∧ j < sector_ofs + chunk)]
      · rw [if_neg (show ¬(s2 = s ∧ sector_ofs ≤ j ∧ j < sector_ofs + chunk) from
              fun hc => hin hc.2)]
        by_cases hj : j < 512
        · rw [if_pos (⟨hs, hj⟩ : s2 = s ∧ j < 512), if_neg hin, hs]
        · rw [if_neg (show ¬(s2 = s ∧ j < 512) from fun hc => hj hc.2)]
    · rw [if_neg (show ¬(s2 = s ∧ j < 512) from fun hc => hs hc.1),
          if_neg (show ¬(s2 = s ∧ sector_ofs ≤ j ∧ j < sector_ofs + chunk) from
            fun hc => hs hc.1)]

/-- `byte_to_sector` succeeds (with its `getD` value) whenever the position
is within the published length. -/
lemma byte_to_sector_eq_getD (disk : Disk) (d : InodeDisk) (pos L : Nat) (h : pos ≤ L) :
    byte_to_sector disk d pos L =
      some ((byte_to_sector disk d pos L).getD (2 ^ 32 - 1)) := by
  unfold byte_to_sector
  rw [if_pos h]
  by_cases h10 : pos / 512 < 10
  · rw [if_pos h10]
    rfl
  · rw [if_neg h10]
    by_cases h138 : pos / 512 < 138
    · rw [if_pos h138]
      rfl
    · rw [if_neg h138]
      rfl

/-- `byte_to_sector` only looks at the index words of the inode. -/
lemma byte_to_sector_dataBlocks (disk : Disk) {d1 d2 : InodeDisk} (pos L : Nat)
    (h : d1.data_blocks = d2.data_blocks) :
    byte_to_sector disk d1 pos L = byte_to_sector disk d2 pos L := by
  unfold byte_to_sector
  rw [h]

/-- Main invariant of the write loop (claim C1).  Under the index-integrity
invariants of the file system — the data sectors the positions resolve to
are pairwise distinct across sector indices and disjoint from the meta
sectors — the loop writes `buf t` to byte `(offset0 + t) mod 512` of sector
`res t` for every `t < size0`, touches nothing else, and returns `size0`. -/
lemma writeLoopF_invariant
    (d : InodeDisk) (fsize : Nat) (buf : Nat → Nat) (disk0 : Disk)
    (offset0 size0 : Nat)
    (hb : offset0 + size0 ≤ fsize)
    (hcap : offset0 + size0 ≤ 16522 * 512)
    (res : Nat → Nat)
    (hres : ∀ t, t < size0 → byte_to_sector disk0 d (offset0 + t) fsize = some (res t))
    (hmeta : ∀ t, t < size0 → metaSec disk0 d (res t) = false)
    (hinj : ∀ t u, t < size0 → u < size0 → (offset0 + t) / 512 ≠ (offset0 + u) / 512 →
      res t ≠ res u) :
    ∀ fuel w disk, size0 - w ≤ fuel → w ≤ size0 →
    (∀ s j, metaSec disk0 d s = true → disk s j = disk0 s j) →
    (∀ t, t < w → disk (res t) ((offset0 + t) % 512) = buf t) →
    (∀ s j, (∀ t, t < w → ¬(res t = s ∧ (offset0 + t) % 512 = j)) → disk s j = disk0 s j) →
    ((writeLoopF d fsize buf fuel (size0 - w) (offset0 + w) w disk).1 = size0 ∧
     (∀ t, t < size0 →
       (writeLoopF d fsize buf fuel (size0 - w) (offset0 + w) w disk).2 (res t)
         ((offset0 + t) % 512) = buf t) ∧
     (∀ s j, (∀ t, t < size0 → ¬(res t = s ∧ (offset0 + t) % 512 = j)) →
       (writeLoopF d fsize buf fuel (size0 - w) (offset0 + w) w disk).2 s j = disk0 s j)) := by
  intro fuel
  induction fuel with
  | zero =>
    intro w disk hfuel hw hag hdata hother
    have hw0 : w = size0 := by omega
    subst hw0
    exact ⟨rfl, fun t ht => hdata t ht, fun s j h => hother s j (fun t ht => h t ht)⟩
  | succ n ih =>
    intro w disk hfuel hw hag hdata hother
    by_cases hall : w = size0
    · rw [writeLoopF, if_pos (show size0 - w = 0 by omega)]
      exact ⟨hall, fun t ht => hdata t (by omega),
        fun s j h => hother s j (fun t ht => h t (by omega))⟩
    · have hwlt : w < size0 := by omega
      have hposcap : offset0 + w < 16522 * 512 := by omega
      have hcur : byte_to_sector disk d (offset0 + w) fsize = some (res w) := by
        rw [byte_to_sector_congr disk disk0 d _ fsize hposcap hag]
        exact hres w hwlt
      have hchunkpos : 0 < chunkOf fsize (size0 - w) (offset0 + w) :=
        chunkOf_pos (by omega) (by omega)
      have hchunkle : chunkOf fsize (size0 - w) (offset0 + w) ≤ size0 - w :=
        chunkOf_le_size _ _ _
      have hfit : (offset0 + w) % 512 + chunkOf fsize (size0 - w) (offset0 + w) ≤ 512 :=
        chunkOf_le_left _ _ _
      set chunk := chunkOf fsize (size0 - w) (offset0 + w) with hchunkdef
      -- every position inside the chunk lies in the same sector as position w
      have hstep : ∀ k, k < chunk → res (w + k) = res w ∧
          (offset0 + (w + k)) % 512 = (offset0 + w) % 512 + k := by
        intro k hk
        have hofs : (offset0 + w) % 512 + k < 512 := by
          have h512 : (offset0 + w) % 512 < 512 := Nat.mod_lt _ (by omega)
          omega
        obtain ⟨hdiv, hmod⟩ := addWithin (offset0 + w) k hofs
        have hsum : offset0 + (w + k) = offset0 + w + k := by omega
        refine ⟨?_, by rw [hsum]; exact hmod⟩
        have h1 := hres (w + k) (by omega)
        have h2 := hres w hwlt
        have h3 : byte_to_sector disk0 d (offset0 + (w + k)) fsize =
            byte_to_sector disk0 d (offset0 + w) fsize := by
          apply byte_to_sector_div
          · rw [hsum]; exact hdiv
          · omega
          · omega
        rw [h1, h2] at h3
        exact Option.some.inj h3
      -- one unfold of the loop
      rw [writeLoopF, if_neg (show ¬(size0 - w = 0) by omega)]
      simp only [hcur, Option.getD_some]
      rw [if_neg (show ¬(chunk = 0) by omega)]
      have hsub : size0 - w - chunk = size0 - (w + chunk) := by omega
      have hadd : offset0 + w + chunk = offset0 + (w + chunk) := by omega
      rw [hsub, hadd]
      apply ih (w + chunk)
      · omega
      · omega
      · -- meta sectors untouched by the chunk write
        intro s j hm
        rw [writeChunk_apply _ _ _ _ _ _ hfit]
        have hne : s ≠ res w := by
          intro he
          rw [he, hmeta w hwlt] at hm
          exact Bool.false_ne_true hm
        rw [if_neg (fun hc => hne hc.1)]
        exact hag s j hm
      · -- all bytes up to w + chunk are now in place
        intro t ht
        rw [writeChunk_apply _ _ _ _ _ _ hfit]
        rcases Nat.lt_or_ge t w with hlt | hge
        · by_cases heq : res t = res w
          · have hdiv : (offset0 + t) / 512 = (offset0 + w) / 512 := by
              by_contra hne
              exact (hinj t w (by omega) hwlt hne) heq
            have hmod : (offset0 + t) % 512 < (offset0 + w) % 512 :=
              modLtOfDivEq (by omega) hdiv
            rw [if_neg (fun hc => absurd hc.2.1 (by omega))]
            exact hdata t hlt
          · rw [if_neg (fun hc => heq hc.1)]
            exact hdata t hlt
        · obtain ⟨hrt, hmodt⟩ := hstep (t - w) (by omega)
          have htw : w + (t - w) = t := by omega
          rw [htw] at hrt hmodt
          rw [hrt, hmodt]
          rw [if_pos ⟨rfl, Nat.le_add_right _ _, by omega⟩]
          congr 1
          omega
      · -- untouched bytes keep their original value
        intro s j hnone
        rw [writeChunk_apply _ _ _ _ _ _ hfit]
        rw [if_neg ?side]
        case side =>
          intro hc
          obtain ⟨hrt, hmodt⟩ := hstep (j - (offset0 + w) % 512) (by omega)
          exact hnone (w + (j - (offset0 + w) % 512)) (by omega)
            ⟨by rw [hrt, hc.1], by rw [hmodt]; omega⟩
        exact hother s j (fun t ht => hnone t (by omega))

lemma getD_range_map (f : Nat → Nat) (chunk t : Nat) (h : t < chunk) :
    ((List.range chunk).map f).getD t 0 = f t := by
  rw [List.getD_eq_getElem?_getD, List.getElem?_map, List.getElem?_range h]
  rfl

/-- The read loop returns `size` bytes whenever the range is within the
published length, and byte `t` is read from the sector the index resolves
for position `offset + t`, at in-sector offset `(offset + t) mod 512`. -/
lemma readLoopF_spec (disk : Disk) (d : InodeDisk) :
    ∀ fuel size offset, size ≤ fuel → offset + size ≤ d.length →
    ((readLoopF disk d fuel size offset).length = size ∧
     ∀ t, t < size → (readLoopF disk d fuel size offset).getD t 0 =
       disk ((byte_to_sector disk d (offset + t) d.length).getD (2 ^ 32 - 1))
         ((offset + t) % 512)) := by
  intro fuel
  induction fuel with
  | zero =>
    intro size offset hs _
    have h0 : size = 0 := by omega
    subst h0
    exact ⟨rfl, fun t ht => absurd ht (by omega)⟩
  | succ n ih =>
    intro size offset hs hb
    by_cases h0 : size = 0
    · subst h0
      rw [readLoopF, if_pos rfl]
      exact ⟨rfl, fun t ht => absurd ht (by omega)⟩
    · have hchunkpos : 0 < chunkOf d.length size offset := chunkOf_pos h0 hb
      have hchunkle : chunkOf d.length size offset ≤ size := chunkOf_le_size _ _ _
      have hfit : offset % 512 + chunkOf d.length size offset ≤ 512 := chunkOf_le_left _ _ _
      rw [readLoopF, if_neg h0, if_neg (show ¬(chunkOf d.length size offset = 0) by omega)]
      obtain ⟨ihlen, ihval⟩ := ih (size - chunkOf d.length size offset)
        (offset + chunkOf d.length size offset) (by omega) (by omega)
      constructor
      · rw [List.length_append, List.length_map, List.length_range, ihlen]
        omega
      · intro t ht
        by_cases htc : t < chunkOf d.length size offset
        · rw [List.getD_append _ _ _ _ (by
            rw [List.length_map, List.length_range]; exact htc)]
          rw [getD_range_map _ _ _ htc]
          have hofs : offset % 512 + t < 512 := by omega
          obtain ⟨hdiv, hmod⟩ := addWithin offset t hofs
          rw [hmod, byte_to_sector_div disk d hdiv (by omega) (by omega)]
        · rw [List.getD_append_right _ _ _ _ (by
            rw [List.length_map, List.length_range]; omega)]
          rw [List.length_map, List.length_range]
          have heq : offset + chunkOf d.length size offset +
              (t - chunkOf d.length size offset) = offset + t := by omega
          have := ihval (t - chunkOf d.length size offset) (by omega)
          rw [heq] at this
          exact this

lemma byte_to_sector_length_congr (disk : Disk) (d : InodeDisk) {pos L1 L2 : Nat}
    (h1 : pos ≤ L1) (h2 : pos ≤ L2) :
    byte_to_sector disk d pos L1 = byte_to_sector disk d pos L2 := by
  unfold byte_to_sector
  rw [if_pos h1, if_pos h2]

/-- The data sector position `offset + t` resolves to after the growth phase
of a write of `size` bytes at `offset` (resolution against the C
`file_size`). -/
def resolveAt (d : InodeDisk) (disk : Disk) (fm : FreeMap) (size offset t : Nat) : Nat :=
  (byte_to_sector (writePrepare d disk fm size offset).2.1
     (writePrepare d disk fm size offset).1 (offset + t)
     (max d.length (offset + size))).getD (2 ^ 32 - 1)

/-- Claim C1: if `inode_write_at` returns `size`, then reading `size` bytes
at the same offset immediately afterwards returns `size` bytes that are
exactly the bytes of the written buffer.  The hypotheses are the
index-integrity invariants of the file system: distinct sector indices of
the file resolve to distinct data sectors, and the data sectors are disjoint
from the inode sector and from the index (meta) sectors `byte_to_sector`
reads. -/
theorem inode_write_then_read
    (sector deny : Nat) (d : InodeDisk) (disk : Disk) (fm : FreeMap)
    (buf : Nat → Nat) (size offset : Nat)
    (hcap : offset + size ≤ 16522 * 512)
    (hmeta : ∀ t, t < size →
      metaSec (writePrepare d disk fm size offset).2.1 (writePrepare d disk fm size offset).1
        (resolveAt d disk fm size offset t) = false)
    (hinj : ∀ t u, t < size → u < size → (offset + t) / 512 ≠ (offset + u) / 512 →
      resolveAt d disk fm size offset t ≠ resolveAt d disk fm size offset u)
    (hsec : ∀ t, t < size → resolveAt d disk fm size offset t ≠ sector)
    (hsecmeta : metaSec (writePrepare d disk fm size offset).2.1
      (writePrepare d disk fm size offset).1 sector = false)
    (hret : (inode_write_at sector deny d disk fm buf size offset).1 = size) :
    (inode_read_at (inode_write_at sector deny d disk fm buf size offset).2.2.1
       (inode_write_at sector deny d disk fm buf size offset).2.1 size offset).length = size ∧
    ∀ t, t < size →
      (inode_read_at (inode_write_at sector deny d disk fm buf size offset).2.2.1
         (inode_write_at sector deny d disk fm buf size offset).2.1 size offset).getD t 0
        = buf t := by
  by_cases hsz : size = 0
  · subst hsz
    exact ⟨rfl, fun t ht => absurd ht (by omega)⟩
  · have hd : ¬ deny > 0 := by
      intro hden
      apply hsz
      unfold inode_write_at at hret
      rw [if_pos hden] at hret
      exact hret.symm
    have hck : ¬ (bytes_to_sectors (offset + size) > bytes_to_sectors d.length ∧
        ¬ check_length fm (bytes_to_sectors (offset + size) - bytes_to_sectors d.length)) := by
      intro hc
      apply hsz
      simp only [inode_write_at] at hret
      rw [if_neg hd, if_pos hc] at hret
      exact hret.symm
    by_cases hg : d.length < offset + size
    · -- growing write: the new length is published and the inode sector rewritten
      set P1 := (writePrepare d disk fm size offset).1 with hP1
      set P2 := (writePrepare d disk fm size offset).2.1 with hP2
      set fsz := max d.length (offset + size) with hfsz
      set run := writeLoopF P1 fsz buf size size offset 0 P2 with hrun
      set D2 : InodeDisk := ⟨P1.data_blocks, offset + size, P1.magic,
        P1.parent_directory, P1.is_directory⟩ with hD2
      have heq : inode_write_at sector deny d disk fm buf size offset =
          (run.1, D2, writeSector run.2 sector (encodeInode D2),
           (writePrepare d disk fm size offset).2.2) := by
        simp only [inode_write_at]
        rw [if_neg hd, if_neg hck, if_pos hg]
      have hfszle : offset + size ≤ fsz := by rw [hfsz]; exact le_max_right _ _
      have hresolve : ∀ t, resolveAt d disk fm size offset t =
          (byte_to_sector P2 P1 (offset + t) fsz).getD (2 ^ 32 - 1) := fun t => rfl
      have hres : ∀ t, t < size → byte_to_sector P2 P1 (offset + t) fsz =
          some (resolveAt d disk fm size offset t) := by
        intro t ht
        rw [hresolve t]
        exact byte_to_sector_eq_getD P2 P1 (offset + t) fsz (by omega)
      have hinv := writeLoopF_invariant P1 fsz buf P2 offset size (by omega) hcap
        (fun t => resolveAt d disk fm size offset t) hres hmeta hinj
        size 0 P2 (by omega) (by omega)
        (fun s j _ => rfl) (fun t ht => absurd ht (by omega)) (fun s j _ => rfl)
      simp only [Nat.sub_zero, Nat.add_zero] at hinv
      obtain ⟨hinv1, hinv2, hinv3⟩ := hinv
      have hagree : ∀ s j, metaSec P2 P1 s = true →
          (writeSector run.2 sector (encodeInode D2)) s j = P2 s j := by
        intro s j hm
        have hnsec : s ≠ sector := by
          intro he
          rw [he, hsecmeta] at hm
          exact Bool.false_ne_true hm
        show (if s = sector ∧ j < 512 then encodeInode D2 j else run.2 s j) = P2 s j
        rw [if_neg (fun hc => hnsec hc.1)]
        refine hinv3 s j (fun t ht hc => ?_)
        rw [← hc.1] at hm
        rw [hmeta t ht] at hm
        exact Bool.false_ne_true hm
      have hL : D2.length = fsz := by
        show offset + size = fsz
        rw [hfsz, max_eq_right (le_of_lt hg)]
      have hrd := readLoopF_spec (writeSector run.2 sector (encodeInode D2)) D2
        size size offset le_rfl (show offset + size ≤ D2.length from le_rfl)
      rw [heq]
      refine ⟨hrd.1, ?_⟩
      intro t ht
      have hb2 := hrd.2 t ht
      show (readLoopF (writeSector run.2 sector (encodeInode D2)) D2 size size offset).getD t 0
          = buf t
      rw [hb2]
      have hres2 : byte_to_sector (writeSector run.2 sector (encodeInode D2)) D2
          (offset + t) D2.length = some (resolveAt d disk fm size offset t) := by
        rw [hL]
        rw [byte_to_sector_dataBlocks _ _ _ (show D2.data_blocks = P1.data_blocks from rfl)]
        rw [byte_to_sector_congr _ P2 P1 (offset + t) fsz (by omega) hagree]
        exact hres t ht
      rw [hres2]
      simp only [Option.getD_some]
      show (if resolveAt d disk fm size offset t = sector ∧ (offset + t) % 512 < 512
          then encodeInode D2 ((offset + t) % 512)
          else run.2 (resolveAt d disk fm size offset t) ((offset + t) % 512)) = buf t
      rw [if_neg (fun hc => hsec t ht hc.1)]
      exact hinv2 t ht
    · -- non-growing write: no growth phase, no length update
      have hprep : writePrepare d disk fm size offset = (d, disk, fm) := by
        unfold writePrepare
        rw [if_neg (by
          have := bytes_to_sectors_mono (show offset + size ≤ d.length by omega)
          omega)]
      have heq : inode_write_at sector deny d disk fm buf size offset =
          ((writeLoopF d (max d.length (offset + size)) buf size size offset 0 disk).1, d,
           (writeLoopF d (max d.length (offset + size)) buf size size offset 0 disk).2, fm) := by
        simp only [inode_write_at]
        rw [if_neg hd, if_neg hck, if_neg hg, hprep]
      set fsz := max d.length (offset + size) with hfsz
      set run := writeLoopF d fsz buf size size offset 0 disk with hrun
      have hfszle : offset + size ≤ fsz := by rw [hfsz]; exact le_max_right _ _
      have hresolve : ∀ t, resolveAt d disk fm size offset t =
          (byte_to_sector disk d (offset + t) fsz).getD (2 ^ 32 - 1) := by
        intro t
        unfold resolveAt
        rw [hprep]
      have hres : ∀ t, t < size → byte_to_sector disk d (offset + t) fsz =
          some (resolveAt d disk fm size offset t) := by
        intro t ht
        rw [hresolve t]
        exact byte_to_sector_eq_getD disk d (offset + t) fsz (by omega)
      have hmeta2 : ∀ t, t < size →
          metaSec disk d (resolveAt d disk fm size offset t) = false := by
        intro t ht
        have hx := hmeta t ht
        rw [hprep] at hx
        exact hx
      have hinv := writeLoopF_invariant d fsz buf disk offset size (by omega) hcap
        (fun t => resolveAt d disk fm size offset t) hres hmeta2 hinj
        size 0 disk (by omega) (by omega)
        (fun s j _ => rfl) (fun t ht => absurd ht (by omega)) (fun s j _ => rfl)
      simp only [Nat.sub_zero, Nat.add_zero] at hinv
      obtain ⟨hinv1, hinv2, hinv3⟩ := hinv
      have hlen : offset + size ≤ d.length := by omega
      have hrd := readLoopF_spec run.2 d size size offset le_rfl hlen
      rw [heq]
      refine ⟨hrd.1, ?_⟩
      intro t ht
      have hb2 := hrd.2 t ht
      show (readLoopF run.2 d size size offset).getD t 0 = buf t
      rw [hb2]
      have hagree : ∀ s j, metaSec disk d s = true → run.2 s j = disk s j := by
        intro s j hm
        refine hinv3 s j (fun t2 ht2 hc => ?_)
        rw [← hc.1] at hm
        rw [hmeta2 t2 ht2] at hm
        exact Bool.false_ne_true hm
      have hres2 : byte_to_sector run.2 d (offset + t) d.length =
          some (resolveAt d disk fm size offset t) := by
        rw [byte_to_sector_congr run.2 disk d (offset + t) d.length (by omega) hagree]
        rw [byte_to_sector_length_congr disk d (by omega : offset + t ≤ d.length)
          (by omega : offset + t ≤ fsz)]
        exact hres t ht
      rw [hres2]
      simp only [Option.getD_some]
      exact hinv2 t ht


/-- Concrete one-sector file inode for the round-trip witness: 4 bytes long,
data in sector 2, stored at sector 1. -/
def c1Inode : InodeDisk := ⟨fun i => if i = 0 then 2 else 0, 4, 0, 0, 0⟩

/-- All-zero disk for the round-trip witness. -/
def c1Disk : Disk := fun _ _ => 0

/-- Free map for the round-trip witness. -/
def c1Fm : FreeMap := ⟨fun _ => true, 30⟩

/-- Buffer for the round-trip witness. -/
def c1Buf : Nat → Nat := fun i => 65 + i

/-- Witness for C1: writing two bytes at offset 0 of the concrete file and
reading them back yields exactly the buffer. -/
theorem inode_write_then_read_witness :
    (inode_write_at 1 0 c1Inode c1Disk c1Fm c1Buf 2 0).1 = 2 ∧
    ((inode_read_at (inode_write_at 1 0 c1Inode c1Disk c1Fm c1Buf 2 0).2.2.1
        (inode_write_at 1 0 c1Inode c1Disk c1Fm c1Buf 2 0).2.1 2 0).length = 2 ∧
     ∀ t, t < 2 →
       (inode_read_at (inode_write_at 1 0 c1Inode c1Disk c1Fm c1Buf 2 0).2.2.1
          (inode_write_at 1 0 c1Inode c1Disk c1Fm c1Buf 2 0).2.1 2 0).getD t 0 = c1Buf t) :=
  ⟨by decide,
   inode_write_then_read 1 0 c1Inode c1Disk c1Fm c1Buf 2 0 (by omega)
     (by decide)
     (by
       intro t u ht hu hne
       exact absurd (by omega : (0 + t) / 512 = (0 + u) / 512) hne)
     (by decide) (by decide) (by decide)⟩


/-! Directory layer (`dir_remove`, `dir_can_remove`).  A directory's content
is the sequence of `struct dir_entry` records stored in its inode; the
byte-level storage is the inode layer verified above, so the directory layer
is modelled over the entry lists directly.  `openBefore s` is the number of
openers the in-memory inode at sector `s` already has before `dir_remove`
itself opens it (`inode_open` returns a fresh inode with count 1, or bumps
the shared one, so the count the check sees is `openBefore s + 1`). -/

/-- A single directory entry (`struct dir_entry`). -/
structure DirEntry where
  inode_sector : Nat
  name : String
  in_use : Bool
deriving DecidableEq

/-- What the directory layer reads from an inode: parent sector, directory
flag, and the entry records its bytes hold. -/
structure DirInode where
  parent : Nat
  is_directory : Bool
  entries : List DirEntry
deriving DecidableEq

/-- `lookup`: scan for the first `in_use` entry with the given name,
returning it together with its slot index (the C byte offset divided by the
entry size). -/
def lookupFrom (name : String) : List DirEntry → Nat → Option (DirEntry × Nat)
  | [], _ => none
  | e :: rest, i =>
    if e.in_use ∧ e.name = name then some (e, i) else lookupFrom name rest (i + 1)

/-- `lookup_sector`: scan for the first `in_use` entry whose inode sector
matches. -/
def lookupSectorFrom (sec : Nat) : List DirEntry → Nat → Option (DirEntry × Nat)
  | [], _ => none
  | e :: rest, i =>
    if e.in_use ∧ e.inode_sector = sec then some (e, i) else lookupSectorFrom sec rest (i + 1)

/-- `dir_readdir` on a fresh handle (position 0) succeeds exactly when some
entry is `in_use`; `dir_can_remove` only uses it that way. -/
def anyInUse (entries : List DirEntry) : Bool := entries.any (fun e => e.in_use)

/-- `dir_can_remove`: the target directory (open count `cnt` after the
`inode_open` in `dir_remove`) may be removed when it has no live entry, is
not the root, and `cnt ≤ 1`. -/
def dir_can_remove (root cnt tsec : Nat) (target : DirInode) : Bool :=
  !(anyInUse target.entries || decide (tsec = root)) && !(decide (cnt > 1))

/-- The directory `dir_remove` actually searches: the parent when the name
is `"."` (looked up by sector), the handle's own directory otherwise. -/
def searchedEntries (fs : Nat → DirInode) (dirSector : Nat) (name : String) : List DirEntry :=
  if name = "." then (fs (fs dirSector).parent).entries else (fs dirSector).entries

/-- The directory-entry lookup `dir_remove` performs.  For `"."` the C code
opens the parent and searches it for the handle's own sector; a root-level
`"."` (parent sector 0) makes `dir_open_parent` return NULL and the
subsequent `lookup_sector` assertion stops the kernel, so no entry is
found. -/
def dirLookupFor (fs : Nat → DirInode) (dirSector : Nat) (name : String) :
    Option (DirEntry × Nat) :=
  if name = "." then
    if (fs dirSector).parent = 0 then none
    else lookupSectorFrom dirSector (fs (fs dirSector).parent).entries 0
  else lookupFrom name (fs dirSector).entries 0

/-- `dir_remove (dir, name)`: find the entry; if its inode is a directory,
check `dir_can_remove`; then clear the entry's `in_use` flag (written back
through `inode_write_at`) and mark the inode removed.  Returns the success
flag and the searched directory's updated entry list. -/
def dir_remove (fs : Nat → DirInode) (openBefore : Nat → Nat) (root dirSector : Nat)
    (name : String) : Bool × List DirEntry :=
  match dirLookupFor fs dirSector name with
  | none => (false, searchedEntries fs dirSector name)
  | some (e, ofs) =>
    let target := fs e.inode_sector
    let cnt := openBefore e.inode_sector + 1
    if target.is_directory && !(dir_can_remove root cnt e.inode_sector target) then
      (false, searchedEntries fs dirSector name)
    else
      (true, (searchedEntries fs dirSector name).set ofs { e with in_use := false })

lemma dir_can_remove_iff (root cnt tsec : Nat) (target : DirInode) :
    dir_can_remove root cnt tsec target = true ↔
      (anyInUse target.entries = false ∧ tsec ≠ root ∧ cnt ≤ 1) := by
  unfold dir_can_remove
  rw [Bool.and_eq_true, Bool.not_eq_true', Bool.not_eq_true', Bool.or_eq_false_iff]
  simp only [decide_eq_false_iff_not]
  constructor
  · rintro ⟨⟨h1, h2⟩, h3⟩
    exact ⟨h1, h2, by omega⟩
  · rintro ⟨h1, h2, h3⟩
    exact ⟨⟨h1, h2⟩, by omega⟩

/-- Claim C4: `dir_remove` succeeds on a directory target only if that
directory is not the root, has no `in_use` entries, and has open count ≤ 1
(counting the open `dir_remove` itself performs); and removing a directory
that still contains a live entry fails and leaves the searched directory's
entries unchanged. -/
theorem dir_remove_spec (fs : Nat → DirInode) (openBefore : Nat → Nat)
    (root dirSector : Nat) (name : String) (e : DirEntry) (ofs : Nat)
    (hfound : dirLookupFor fs dirSector name = some (e, ofs))
    (hdir : (fs e.inode_sector).is_directory = true) :
    ((dir_remove fs openBefore root dirSector name).1 = true →
      e.inode_sector ≠ root ∧
      (∀ ent ∈ (fs e.inode_sector).entries, ent.in_use = false) ∧
      openBefore e.inode_sector + 1 ≤ 1) ∧
    ((∃ ent ∈ (fs e.inode_sector).entries, ent.in_use = true) →
      (dir_remove fs openBefore root dirSector name).1 = false ∧
      (dir_remove fs openBefore root dirSector name).2 = searchedEntries fs dirSector name) := by
  have hr : dir_remove fs openBefore root dirSector name =
      (if ((fs e.inode_sector).is_directory &&
            !(dir_can_remove root (openBefore e.inode_sector + 1) e.inode_sector
              (fs e.inode_sector))) = true
       then (false, searchedEntries fs dirSector name)
       else (true, (searchedEntries fs dirSector name).set ofs { e with in_use := false })) := by
    unfold dir_remove
    rw [hfound]
  rw [hr]
  by_cases hblock : (fs e.inode_sector).is_directory &&
      !(dir_can_remove root (openBefore e.inode_sector + 1) e.inode_sector (fs e.inode_sector))
  · rw [if_pos hblock]
    exact ⟨fun h => absurd h (by simp), fun _ => ⟨rfl, rfl⟩⟩
  · rw [if_neg hblock]
    have hcan : dir_can_remove root (openBefore e.inode_sector + 1) e.inode_sector
        (fs e.inode_sector) = true := by
      rcases Bool.eq_false_or_eq_true
          (dir_can_remove root (openBefore e.inode_sector + 1) e.inode_sector
            (fs e.inode_sector)) with h | h
      · exact h
      · exfalso
        apply hblock
        rw [hdir, h]
        rfl
    rw [dir_can_remove_iff] at hcan
    obtain ⟨hempty, hroot, hcnt⟩ := hcan
    constructor
    · intro _
      refine ⟨hroot, ?_, hcnt⟩
      intro ent hent
      have hx := List.any_eq_false.mp hempty ent hent
      simpa using hx
    · rintro ⟨ent, hent, huse⟩
      exfalso
      have hx : anyInUse (fs e.inode_sector).entries = true :=
        List.any_eq_true.mpr ⟨ent, hent, huse⟩
      rw [hx] at hempty
      exact absurd hempty (by decide)


/-- Concrete file system for the `dir_remove` witness: root at sector 1; a
directory at sector 4 containing `sub` (sector 5); `sub` itself still holds
the live entry `f`. -/
def c4Fs : Nat → DirInode := fun s =>
  if s = 4 then ⟨1, true, [⟨5, ("sub"), true⟩]⟩
  else if s = 5 then ⟨4, true, [⟨6, ("f"), true⟩]⟩
  else ⟨0, false, []⟩

/-- Witness for C4: removing the non-empty directory `sub` fails and leaves
its parent's entries unchanged. -/
theorem dir_remove_spec_witness :
    (dir_remove c4Fs (fun _ => 0) 1 4 ("sub")).1 = false ∧
    (dir_remove c4Fs (fun _ => 0) 1 4 ("sub")).2 = searchedEntries c4Fs 4 ("sub") :=
  (dir_remove_spec c4Fs (fun _ => 0) 1 4 ("sub") ⟨5, ("sub"), true⟩ 0
      (by decide) (by decide)).2 ⟨⟨6, ("f"), true⟩, by decide, rfl⟩


/-! Demand-paging engine: frame table, supplemental page table, swap, the
clock evictor (`evict`) and the validation phase of the page-fault handler.
Threads are identified by a numeric id; a cleared frame stores `0` for both
owner and page, mirroring the NULL pointers `frame_deallocate` writes. -/

/-- Location tag of a supplemental-page-table entry (`enum block_type` as the
code uses it): `kernel` = resident in a frame, `filesys` = backed by the
file system, `swap` = in a swap slot. -/
inductive BlockType where
  | kernel
  | filesys
  | swap
deriving DecidableEq

/-- `struct sp_entry`. -/
structure SpEntry where
  upage : Nat
  block : BlockType
  mem_addr : Option Nat
  file_addr : Nat
  read_bytes : Nat
  swap_index : Int
  writable : Bool
deriving DecidableEq

/-- One frame-table slot (`struct frame_entry`): the user page stored in the
frame and its owning thread. -/
structure FrameEntry where
  upage : Nat
  frame_owner : Nat
deriving DecidableEq

/-- Global state of the paging engine: frame table with clock hand, the
accessed/dirty/present bits of every thread's page directory, every thread's
supplemental page table, the swap bitmap and partition, and physical
memory. -/
structure VmState where
  table_size : Nat
  clock_hand : Nat
  frames : Nat → FrameEntry
  accessed : Nat → Nat → Bool
  dirty : Nat → Nat → Bool
  mapped : Nat → Nat → Bool
  spt : Nat → Nat → Option SpEntry
  swap_slots : Nat
  swap_map : Nat → Bool
  swap_disk : Nat → Nat → Nat
  mem : Nat → Nat
  base_address : Nat

/-- Advance of the clock hand: wrap to 0 past the last frame. -/
def advanceHand (st : VmState) : Nat :=
  if st.clock_hand < st.table_size - 1 then st.clock_hand + 1 else 0

/-- The victim-selection loop of `evict`: while the frame under the hand has
its accessed bit set, clear it and advance.  One pass over the table plus
one step always suffices, so the fuel only rules out an infinite spin when
every frame stays accessed forever (impossible, since the loop clears the
bits it visits). -/
def clockLoop : Nat → VmState → Option VmState
  | 0, _ => none
  | fuel + 1, st =>
    let fr := st.frames st.clock_hand
    if st.accessed fr.frame_owner fr.upage then
      clockLoop fuel { st with
        accessed := fun o u =>
          if o = fr.frame_owner ∧ u = fr.upage then false else st.accessed o u,
        clock_hand := advanceHand st }
    else some st

/-- Modelled from the spec: `bitmap_scan_and_flip (map, 0, 1, false)` finds
the first clear bit, sets it, and returns its index (`BITMAP_ERROR`, here
`none`, when the map is full). -/
def bitmapScanFlip (map : Nat → Bool) (slots : Nat) : Option (Nat × (Nat → Bool)) :=
  match (List.range slots).find? (fun i => !map i) with
  | some i => some (i, fun j => if j = i then true else map j)
  | none => none

/-- `swap_write (page)`: allocate a fresh swap slot, copy the page's 4096
bytes from memory into the slot's 8 sectors, and retag the SPT entry via
`page_set_sector` (block to swap, the slot index recorded, `mem_addr`
cleared).  A full swap is a kernel panic, modelled as `none`. -/
def swap_write (st : VmState) (p : SpEntry) : Option (VmState × SpEntry) :=
  match bitmapScanFlip st.swap_map st.swap_slots with
  | none => none
  | some (idx, map2) =>
    let src := p.mem_addr.getD 0
    some ({ st with
        swap_map := map2,
        swap_disk := fun sec j =>
          if idx * 8 ≤ sec ∧ sec < idx * 8 + 8 ∧ j < 512
          then st.mem (src + 512 * (sec - idx * 8) + j)
          else st.swap_disk sec j },
      { p with swap_index := (idx : Int), block := BlockType.swap, mem_addr := none })

/-- `evict`: select a victim with the clock loop; if the victim page's dirty
bit is set, write it to swap, otherwise retag its SPT entry to the file
system (`page_replace (page, NULL, BLOCK_FILESYS)`); then clear the page
directory mapping, deallocate the frame slot, zero the physical page and
return its address.  `none` models the NULL-dereference on a missing SPT
entry and the out-of-swap panic. -/
def evict (st : VmState) : Option (Nat × VmState) :=
  match clockLoop (st.table_size + 1) st with
  | none => none
  | some st1 =>
    let fr := st1.frames st1.clock_hand
    let kpage := st1.clock_hand * 4096 + st1.base_address
    match st1.spt fr.frame_owner fr.upage with
    | none => none
    | some p =>
      let step2 : Option (VmState × SpEntry) :=
        if st1.dirty fr.frame_owner fr.upage then swap_write st1 p
        else some (st1, { p with mem_addr := none, swap_index := -1, block := BlockType.filesys })
      match step2 with
      | none => none
      | some (st2, p2) =>
        some (kpage, { st2 with
          spt := fun o u =>
            if o = fr.frame_owner ∧ u = fr.upage then some p2 else st2.spt o u,
          mapped := fun o u =>
            if o = fr.frame_owner ∧ u = p.upage then false else st2.mapped o u,
          frames := fun i => if i = st1.clock_hand then ⟨0, 0⟩ else st2.frames i,
          mem := fun a => if kpage ≤ a ∧ a < kpage + 4096 then 0 else st2.mem a })

/-- The post-clock state (the state whose hand rests on the victim). -/
def victimState (st : VmState) : VmState := (clockLoop (st.table_size + 1) st).getD st

/-- The victim frame. -/
def victimFrame (st : VmState) : FrameEntry :=
  (victimState st).frames (victimState st).clock_hand

/-- The victim's supplemental-page-table entry. -/
def victimEntry (st : VmState) : SpEntry :=
  ((victimState st).spt (victimFrame st).frame_owner (victimFrame st).upage).getD
    ⟨0, BlockType.kernel, none, 0, 0, 0, false⟩

/-- The dirty bit of the victim page at selection time. -/
def victimDirty (st : VmState) : Bool :=
  (victimState st).dirty (victimFrame st).frame_owner (victimFrame st).upage

/-- The physical address `evict` hands back. -/
def evictKpage (st : VmState) : Nat :=
  (victimState st).clock_hand * 4096 + (victimState st).base_address

/-- Claim C5: on every successful eviction, the victim page is written to a
freshly allocated swap slot and its SPT entry retagged to swap exactly when
the victim's dirty bit is set at selection time; otherwise the entry is
retagged to the file system with the file location untouched and no swap
slot consumed.  In both cases the page-directory mapping is cleared, the
frame slot deallocated and the physical page zeroed before reuse.  The
hypotheses are: the clock loop selects a victim, the victim has an SPT entry
(the C code dereferences it unconditionally), that entry records the frame's
user page (the SPT/frame duality invariant), and — for a dirty victim — the
swap is not full (a full swap is a kernel panic). -/
theorem evict_spec (st : VmState)
    (hclock : (clockLoop (st.table_size + 1) st).isSome = true)
    (hspt : ((victimState st).spt (victimFrame st).frame_owner
      (victimFrame st).upage).isSome = true)
    (hupage : (victimEntry st).upage = (victimFrame st).upage)
    (hswap : victimDirty st = true →
      (bitmapScanFlip (victimState st).swap_map (victimState st).swap_slots).isSome = true) :
    ∃ st2, evict st = some (evictKpage st, st2) ∧
      ((victimDirty st = true →
        ∃ idx map2,
          bitmapScanFlip (victimState st).swap_map (victimState st).swap_slots =
            some (idx, map2) ∧
          (victimState st).swap_map idx = false ∧
          st2.swap_map idx = true ∧
          (∀ i, i ≠ idx → st2.swap_map i = (victimState st).swap_map i) ∧
          st2.spt (victimFrame st).frame_owner (victimFrame st).upage =
            some { victimEntry st with swap_index := (idx : Int), block := BlockType.swap, mem_addr := none } ∧
          (∀ i, i < 8 → ∀ j, j < 512 →
            st2.swap_disk (idx * 8 + i) j =
              (victimState st).mem ((victimEntry st).mem_addr.getD 0 + 512 * i + j))) ∧
       (victimDirty st = false →
        st2.swap_map = (victimState st).swap_map ∧
        st2.spt (victimFrame st).frame_owner (victimFrame st).upage =
          some { victimEntry st with mem_addr := none, swap_index := -1, block := BlockType.filesys }) ∧
       st2.frames (victimState st).clock_hand = ⟨0, 0⟩ ∧
       st2.mapped (victimFrame st).frame_owner (victimFrame st).upage = false ∧
       (∀ j, j < 4096 → st2.mem (evictKpage st + j) = 0)) := by
  obtain ⟨st1, hst1⟩ := Option.isSome_iff_exists.mp hclock
  have hvs : victimState st = st1 := by
    unfold victimState
    rw [hst1]
    rfl
  obtain ⟨p, hp⟩ := Option.isSome_iff_exists.mp hspt
  have hve : victimEntry st = p := by
    unfold victimEntry
    rw [hp]
    rfl
  have hvf : victimFrame st = st1.frames st1.clock_hand := by
    unfold victimFrame
    rw [hvs]
  have hvd : victimDirty st = st1.dirty (st1.frames st1.clock_hand).frame_owner
      (st1.frames st1.clock_hand).upage := by
    unfold victimDirty
    rw [hvs, hvf]
  have hkp : evictKpage st = st1.clock_hand * 4096 + st1.base_address := by
    unfold evictKpage
    rw [hvs]
  rw [hvs, hvf] at hp
  rw [hve, hvf] at hupage
  rw [hvs, hvf, hve, hvd, hkp]
  by_cases hdirty : st1.dirty (st1.frames st1.clock_hand).frame_owner
      (st1.frames st1.clock_hand).upage
  · -- dirty victim: swap write
    have hsw := hswap (by rw [hvd]; exact hdirty)
    rw [hvs] at hsw
    obtain ⟨pr, hscan⟩ := Option.isSome_iff_exists.mp hsw
    have hscan2 := hscan
    unfold bitmapScanFlip at hscan2
    cases hfind : (List.range st1.swap_slots).find? (fun i => !st1.swap_map i) with
    | none =>
      rw [hfind] at hscan2
      exact absurd hscan2 (by simp)
    | some i =>
      rw [hfind] at hscan2
      have hpr : pr = (i, fun j => if j = i then true else st1.swap_map j) :=
        (Option.some.inj hscan2).symm
      have hmapi : st1.swap_map i = false := by
        have hx := List.find?_some hfind
        simpa using hx
      refine ⟨{ st1 with
          swap_map := pr.2,
          swap_disk := fun sec j =>
            if pr.1 * 8 ≤ sec ∧ sec < pr.1 * 8 + 8 ∧ j < 512
            then st1.mem (p.mem_addr.getD 0 + 512 * (sec - pr.1 * 8) + j)
            else st1.swap_disk sec j,
          spt := fun o u =>
            if o = (st1.frames st1.clock_hand).frame_owner ∧
               u = (st1.frames st1.clock_hand).upage
            then some { p with swap_index := (pr.1 : Int), block := BlockType.swap, mem_addr := none }
            else st1.spt o u,
          mapped := fun o u =>
            if o = (st1.frames st1.clock_hand).frame_owner ∧ u = p.upage
            then false else st1.mapped o u,
          frames := fun k => if k = st1.clock_hand then ⟨0, 0⟩ else st1.frames k,
          mem := fun a =>
            if st1.clock_hand * 4096 + st1.base_address ≤ a ∧
               a < st1.clock_hand * 4096 + st1.base_address + 4096
            then 0 else st1.mem a }, ?_, ?_, ?_, ?_, ?_, ?_⟩
      · -- the computed result of evict
        unfold evict
        simp only [hst1, hp, hdirty]
        unfold swap_write
        simp only [hscan, hpr]
        rfl
      · -- swap-slot allocation and SPT retagging for the dirty case
        intro _
        refine ⟨pr.1, pr.2, ?_, ?_, ?_, ?_, ?_, ?_⟩
        · rw [Prod.mk.eta]
          exact hscan
        · rw [hpr]
          exact hmapi
        · show pr.2 pr.1 = true
          rw [hpr]
          simp
        · intro k hk
          show pr.2 k = st1.swap_map k
          rw [hpr] at hk ⊢
          simp only [if_neg hk]
        · show (if (st1.frames st1.clock_hand).frame_owner =
                (st1.frames st1.clock_hand).frame_owner ∧
              (st1.frames st1.clock_hand).upage = (st1.frames st1.clock_hand).upage
            then some { p with swap_index := (pr.1 : Int), block := BlockType.swap, mem_addr := none }
            else st1.spt (st1.frames st1.clock_hand).frame_owner
              (st1.frames st1.clock_hand).upage) = _
          rw [if_pos ⟨rfl, rfl⟩]
        · intro k hk j hj
          show (if pr.1 * 8 ≤ pr.1 * 8 + k ∧ pr.1 * 8 + k < pr.1 * 8 + 8 ∧ j < 512
            then st1.mem (p.mem_addr.getD 0 + 512 * (pr.1 * 8 + k - pr.1 * 8) + j)
            else st1.swap_disk (pr.1 * 8 + k) j) = st1.mem (p.mem_addr.getD 0 + 512 * k + j)
          rw [if_pos ⟨by omega, by omega, hj⟩]
          congr 2
          omega
      · intro hfalse
        rw [hdirty] at hfalse
        exact absurd hfalse (by decide)
      · show (if st1.clock_hand = st1.clock_hand then (⟨0, 0⟩ : FrameEntry)
            else st1.frames st1.clock_hand) = ⟨0, 0⟩
        rw [if_pos rfl]
      · show (if (st1.frames st1.clock_hand).frame_owner =
              (st1.frames st1.clock_hand).frame_owner ∧
            (st1.frames st1.clock_hand).upage = p.upage
          then false
          else st1.mapped (st1.frames st1.clock_hand).frame_owner
            (st1.frames st1.clock_hand).upage) = false
        rw [if_pos ⟨rfl, hupage.symm⟩]
      · intro j hj
        show (if st1.clock_hand * 4096 + st1.base_address ≤
              st1.clock_hand * 4096 + st1.base_address + j ∧
            st1.clock_hand * 4096 + st1.base_address + j <
              st1.clock_hand * 4096 + st1.base_address + 4096
          then 0 else st1.mem (st1.clock_hand * 4096 + st1.base_address + j)) = 0
        rw [if_pos ⟨by omega, by omega⟩]
  · -- clean victim: retag to the file system
    have hdf : st1.dirty (st1.frames st1.clock_hand).frame_owner
        (st1.frames st1.clock_hand).upage = false := by
      rcases Bool.eq_false_or_eq_true (st1.dirty (st1.frames st1.clock_hand).frame_owner
        (st1.frames st1.clock_hand).upage) with h | h
      · exact absurd h hdirty
      · exact h
    refine ⟨{ st1 with
        spt := fun o u =>
          if o = (st1.frames st1.clock_hand).frame_owner ∧
             u = (st1.frames st1.clock_hand).upage
          then some { p with mem_addr := none, swap_index := -1, block := BlockType.filesys }
          else st1.spt o u,
        mapped := fun o u =>
          if o = (st1.frames st1.clock_hand).frame_owner ∧ u = p.upage
          then false else st1.mapped o u,
        frames := fun k => if k = st1.clock_hand then ⟨0, 0⟩ else st1.frames k,
        mem := fun a =>
          if st1.clock_hand * 4096 + st1.base_address ≤ a ∧
             a < st1.clock_hand * 4096 + st1.base_address + 4096
          then 0 else st1.mem a }, ?_, ?_, ?_, ?_, ?_, ?_⟩
    · unfold evict
      simp only [hst1, hp, hdf]
      rfl
    · intro htrue
      rw [hdf] at htrue
      exact absurd htrue (by decide)
    · intro _
      refine ⟨rfl, ?_⟩
      show (if (st1.frames st1.clock_hand).frame_owner =
              (st1.frames st1.clock_hand).frame_owner ∧
            (st1.frames st1.clock_hand).upage = (st1.frames st1.clock_hand).upage
          then some { p with mem_addr := none, swap_index := -1, block := BlockType.filesys }
          else st1.spt (st1.frames st1.clock_hand).frame_owner
            (st1.frames st1.clock_hand).upage) = _
      rw [if_pos ⟨rfl, rfl⟩]
    · show (if st1.clock_hand = st1.clock_hand then (⟨0, 0⟩ : FrameEntry)
          else st1.frames st1.clock_hand) = ⟨0, 0⟩
      rw [if_pos rfl]
    · show (if (st1.frames st1.clock_hand).frame_owner =
            (st1.frames st1.clock_hand).frame_owner ∧
          (st1.frames st1.clock_hand).upage = p.upage
        then false
        else st1.mapped (st1.frames st1.clock_hand).frame_owner
          (st1.frames st1.clock_hand).upage) = false
      rw [if_pos ⟨rfl, hupage.symm⟩]
    · intro j hj
      show (if st1.clock_hand * 4096 + st1.base_address ≤
            st1.clock_hand * 4096 + st1.base_address + j ∧
          st1.clock_hand * 4096 + st1.base_address + j <
            st1.clock_hand * 4096 + st1.base_address + 4096
        then 0 else st1.mem (st1.clock_hand * 4096 + st1.base_address + j)) = 0
      rw [if_pos ⟨by omega, by omega⟩]


/-- Concrete paging state for the eviction witness: one frame holding page
0x2000 of thread 1, not accessed, dirty, with an SPT entry resident at
physical address 0, and a two-slot empty swap. -/
def c5St : VmState :=
  { table_size := 1, clock_hand := 0,
    frames := fun _ => ⟨8192, 1⟩,
    accessed := fun _ _ => false,
    dirty := fun _ _ => true,
    mapped := fun _ _ => true,
    spt := fun o u =>
      if o = 1 ∧ u = 8192 then some ⟨8192, BlockType.kernel, some 0, 0, 0, -1, true⟩
      else none,
    swap_slots := 2, swap_map := fun _ => false,
    swap_disk := fun _ _ => 0, mem := fun a => a % 256, base_address := 0 }

/-- Witness for C5 at the concrete paging state. -/
theorem evict_spec_witness :
    ∃ st2, evict c5St = some (evictKpage c5St, st2) ∧
      ((victimDirty c5St = true →
        ∃ idx map2,
          bitmapScanFlip (victimState c5St).swap_map (victimState c5St).swap_slots =
            some (idx, map2) ∧
          (victimState c5St).swap_map idx = false ∧
          st2.swap_map idx = true ∧
          (∀ i, i ≠ idx → st2.swap_map i = (victimState c5St).swap_map i) ∧
          st2.spt (victimFrame c5St).frame_owner (victimFrame c5St).upage =
            some { victimEntry c5St with swap_index := (idx : Int), block := BlockType.swap, mem_addr := none } ∧
          (∀ i, i < 8 → ∀ j, j < 512 →
            st2.swap_disk (idx * 8 + i) j =
              (victimState c5St).mem ((victimEntry c5St).mem_addr.getD 0 + 512 * i + j))) ∧
       (victimDirty c5St = false →
        st2.swap_map = (victimState c5St).swap_map ∧
        st2.spt (victimFrame c5St).frame_owner (victimFrame c5St).upage =
          some { victimEntry c5St with mem_addr := none, swap_index := -1, block := BlockType.filesys }) ∧
       st2.frames (victimState c5St).clock_hand = ⟨0, 0⟩ ∧
       st2.mapped (victimFrame c5St).frame_owner (victimFrame c5St).upage = false ∧
       (∀ j, j < 4096 → st2.mem (evictKpage c5St + j) = 0)) :=
  evict_spec c5St (by rfl) (by rfl) (by rfl) (fun _ => by rfl)

/-! Page-fault validation (claim C6). -/

/-- Page size. -/
def PGSIZE : Nat := 4096

/-- Base of kernel virtual memory (`PHYS_BASE`, 3 GiB); user virtual
addresses lie strictly below it. -/
def PHYS_BASE : Nat := 3221225472

/-- `is_user_vaddr`. -/
def is_user_vaddr (a : Nat) : Bool := decide (a < PHYS_BASE)

/-- `f->esp - PUSH_BYTES` as 32-bit pointer arithmetic (`PUSH_BYTES = 32`,
the largest x86 push). -/
def espMinus32 (esp : Nat) : Nat := (esp + 2 ^ 32 - 32) % 2 ^ 32

set_option linter.unusedVariables false in
/-- The validation phase of `page_fault`: round the fault address down to a
page, look it up in the SPT, classify stack growth, and decide whether the
faulting process is killed with exit status -1.  `write` and `user` are the
remaining error-code bits, which this check does not consult. -/
def page_fault_kills (not_present write user : Bool) (fault_addr esp : Nat)
    (sptHas : Nat → Bool) : Bool :=
  let upage := fault_addr - fault_addr % PGSIZE
  let page := sptHas upage
  let stack_growth := decide (fault_addr ≥ espMinus32 esp) && !page
  !not_present || !(is_user_vaddr upage) || (!page && !stack_growth)

/-- Claim C6: the faulting process is killed with exit status -1 whenever
the fault was a write to a present (read-only) page, or the faulting page
lies in kernel virtual space, or there is no SPT entry for the page and the
access does not qualify as stack growth (fault address ≥ saved user stack
pointer − 32). -/
theorem page_fault_rejects (not_present write user : Bool) (fault_addr esp : Nat)
    (sptHas : Nat → Bool)
    (h : (not_present = false ∧ write = true) ∨
         PHYS_BASE ≤ fault_addr - fault_addr % PGSIZE ∨
         (sptHas (fault_addr - fault_addr % PGSIZE) = false ∧
          fault_addr < espMinus32 esp)) :
    page_fault_kills not_present write user fault_addr esp sptHas = true := by
  unfold page_fault_kills
  show (!not_present || !(is_user_vaddr (fault_addr - fault_addr % PGSIZE)) ||
      (!(sptHas (fault_addr - fault_addr % PGSIZE)) &&
       !(decide (fault_addr ≥ espMinus32 esp) &&
         !(sptHas (fault_addr - fault_addr % PGSIZE))))) = true
  rcases h with ⟨h1, _⟩ | h2 | ⟨h3, h4⟩
  · rw [h1]
    rfl
  · have hu : is_user_vaddr (fault_addr - fault_addr % PGSIZE) = false := by
      unfold is_user_vaddr
      rw [decide_eq_false_iff_not]
      omega
    rw [hu]
    simp
  · have hg : decide (fault_addr ≥ espMinus32 esp) = false := by
      rw [decide_eq_false_iff_not]
      omega
    rw [h3, hg]
    simp

/-- Witness for C6: a write to a present page kills. -/
theorem page_fault_rejects_witness :
    (false = false ∧ true = true) ∧
    page_fault_kills false true true 4096 8192 (fun _ => true) = true :=
  ⟨⟨rfl, rfl⟩, page_fault_rejects false true true 4096 8192 (fun _ => true)
    (Or.inl ⟨rfl, rfl⟩)⟩

/-! File-descriptor allocation (`init_file`, claim C7).  `MAX_FILES` is a
parameter; the table maps descriptors to opaque file ids. -/

/-- The free-slot search loop of `init_file`: advance while the current slot
is occupied and the index is below `MAX_FILES - 1`.  One slot is examined
per fuel unit; `maxFiles` fuel is always enough because the index grows
towards `maxFiles - 1`. -/
def searchLoop (files : Nat → Option Nat) (maxFiles : Nat) : Nat → Nat → Nat
  | 0, new_fd => new_fd
  | fuel + 1, new_fd =>
    if (files new_fd).isSome ∧ new_fd < maxFiles - 1 then
      searchLoop files maxFiles fuel (new_fd + 1)
    else new_fd

/-- `init_file (file)`: store the file at index `next_fd`, search for the
next open index, and return the descriptor (−1 on error).  Returns the
result, the updated table and the updated `next_fd`. -/
def init_file (maxFiles : Nat) (files : Nat → Option Nat) (next_fd : Int) (file : Nat) :
    Int × (Nat → Option Nat) × Int :=
  let fd := next_fd
  if fd > 1 then
    let files2 := fun i => if i = fd.toNat then some file else files i
    let new_fd := searchLoop files2 maxFiles maxFiles fd.toNat
    if fd = (maxFiles : Int) then (-1, files2, -1)
    else (fd, files2, (new_fd : Int))
  else (-1, files, next_fd)

/-- Full table for the C7 failing input: `MAX_FILES = 4`, descriptors 2 and
3 both occupied, `next_fd = 3`. -/
def c7Files : Nat → Option Nat := fun i =>
  if i = 2 then some 50 else if i = 3 then some 60 else none

set_option maxRecDepth 4000 in
/-- Claim C7 failing input: with no free slot at index ≥ `next_fd` (the
table is full), `init_file` does not return −1 — it returns
`MAX_FILES − 1 = 3` and overwrites the occupied slot 3 (which held file 60)
with the new file 77, because the guard compares `fd == MAX_FILES`, a value
the search loop can never produce.  This contradicts the claim and the
function's own comment (return −1 when no space is left). -/
theorem init_file_full_table_bug :
    (init_file 4 c7Files 3 77).1 = 3 ∧
    (init_file 4 c7Files 3 77).1 ≠ -1 ∧
    c7Files 3 = some 60 ∧
    (init_file 4 c7Files 3 77).2.1 3 = some 77 ∧
    (init_file 4 c7Files 3 77).2.2 = 3 := by decide

/-! The `write` syscall's stdout path (claim C8). -/

/-- The chunking loop of `write_to_stdout`: while `size / 256 ≥ 1`, call
`putbuf (buffer, size)` — note: with the REMAINING size, not 256 — then
advance the buffer by 256 and shrink the size by 256.  Returns the emitted
bytes together with the final size and buffer offset. -/
def stdoutLoop (buf : Nat → Nat) : Nat → Nat → Nat → List Nat × Nat × Nat
  | 0, size, ofs => ([], size, ofs)
  | fuel + 1, size, ofs =>
    if size / 256 ≥ 1 then
      let r := stdoutLoop buf fuel (size - 256) (ofs + 256)
      ((List.range size).map (fun j => buf (ofs + j)) ++ r.1, r.2)
    else ([], size, ofs)

/-- `write_to_stdout (f, old_size, buffer)`: run the chunking loop, emit the
remainder if `size % 256 > 0`, and return `old_size` in `f->eax`.  The first
component is the full byte sequence handed to the console. -/
def write_to_stdout (buf : Nat → Nat) (old_size : Nat) : List Nat × Nat :=
  let r := stdoutLoop buf old_size old_size 0
  let out := if r.2.1 % 256 > 0
    then r.1 ++ (List.range r.2.1).map (fun j => buf (r.2.2 + j))
    else r.1
  (out, old_size)

set_option maxRecDepth 40000 in
/-- Claim C8 failing input: writing 257 bytes to fd 1 returns 257 but emits
258 bytes to the console — the loop calls `putbuf (buffer, 257)` (a chunk
larger than 256) and then `putbuf (buffer + 256, 1)` re-emits byte 256 —
because `putbuf` is passed the remaining size instead of 256.  For any
`size ≤ 256` the output is exactly the buffer. -/
theorem write_to_stdout_chunking_bug :
    (write_to_stdout (fun i => i) 257).2 = 257 ∧
    ((write_to_stdout (fun i => i) 257).1).length = 258 ∧
    (write_to_stdout (fun i => i) 256).1 = (List.range 256).map (fun i => i) := by decide

/-! File-oriented system calls of the directory-aware handler
(`read_call`, `write_call`, `filesize_call`, `seek_call`, `tell_call`,
`close_call`).  A file handle wraps an open inode with a position;
`is_directory (fd)` reads the inode's directory flag through
`file_get_inode` and dereferences the table slot unconditionally, so an
empty slot makes it fault inside the kernel (`Outcome.crash`). -/

/-- `inode_is_dir`. -/
def inode_is_dir (d : InodeDisk) : Bool := decide (d.is_directory ≠ 0)

/-- Modelled from the spec: a `struct file` as the descriptor table stores
it (`file.c` is not among the sources) — the open inode (its sector, image
and deny-write count) plus the read/write position. -/
structure FileHandle where
  inodeSector : Nat
  inode : InodeDisk
  deny : Nat
  pos : Nat

/-- Per-process syscall environment: descriptor table, `next_fd` hint and
the file system state. -/
structure SysEnv where
  maxFiles : Nat
  files : Nat → Option FileHandle
  nextFd : Int
  disk : Disk
  fm : FreeMap

/-- Result of one syscall: a value in `f->eax`, a void return, termination
of the process with exit status −1, or a kernel fault from dereferencing a
NULL file. -/
inductive Outcome where
  | ret (v : Int)
  | done
  | kill
  | crash
deriving DecidableEq

/-- Modelled from the spec: `file_write` delegates to `inode_write_at` at
the file's position and advances it by the bytes written. -/
def file_write (env : SysEnv) (h : FileHandle) (buf : Nat → Nat) (size : Nat) :
    Nat × SysEnv × FileHandle :=
  let r := inode_write_at h.inodeSector h.deny h.inode env.disk env.fm buf size h.pos
  (r.1, { env with disk := r.2.2.1, fm := r.2.2.2 },
   { h with inode := r.2.1, pos := h.pos + r.1 })

/-- Modelled from the spec: `file_read` delegates to `inode_read_at` at the
file's position; only the returned byte count is needed here. -/
def file_read_len (env : SysEnv) (h : FileHandle) (size : Nat) : Nat :=
  (inode_read_at env.disk h.inode size h.pos).length

/-- `read_call`: fd 1, negative or out-of-range descriptors yield −1; fd 0
reads the keyboard and returns the byte count (= `size`); a directory or an
empty slot yields −1; otherwise `file_read`. -/
def read_call (env : SysEnv) (fd : Int) (size : Nat) : Outcome :=
  if fd = 1 ∨ fd < 0 ∨ fd ≥ (env.maxFiles : Int) then Outcome.ret (-1)
  else if fd = 0 then Outcome.ret (size : Int)
  else match env.files fd.toNat with
    | some h =>
      if inode_is_dir h.inode then Outcome.ret (-1)
      else Outcome.ret ((file_read_len env h size : Int))
    | none => Outcome.ret (-1)

/-- `write_call`: descriptors ≤ 0 or out of range yield −1; fd 1 goes to
the console via `write_to_stdout`; an empty slot yields −1; any other open
handle — including a directory, there is no `is_directory` check here —
goes to `file_write`. -/
def write_call (env : SysEnv) (fd : Int) (buf : Nat → Nat) (size : Nat) :
    Outcome × SysEnv :=
  if fd ≤ 0 ∨ fd ≥ (env.maxFiles : Int) then (Outcome.ret (-1), env)
  else if fd = 1 then (Outcome.ret ((write_to_stdout buf size).2 : Int), env)
  else match env.files fd.toNat with
    | some h =>
      let r := file_write env h buf size
      (Outcome.ret (r.1 : Int),
       { r.2.1 with files := fun i => if i = fd.toNat then some r.2.2 else env.files i })
    | none => (Outcome.ret (-1), env)

/-- `filesize_call`: descriptors outside `[2, MAX_FILES)` kill the process;
a directory kills; an empty slot faults inside `is_directory`. -/
def filesize_call (env : SysEnv) (fd : Int) : Outcome :=
  if fd < 2 ∨ fd ≥ (env.maxFiles : Int) then Outcome.kill
  else match env.files fd.toNat with
    | none => Outcome.crash
    | some h =>
      if inode_is_dir h.inode then Outcome.kill
      else Outcome.ret (h.inode.length : Int)

set_option linter.unusedVariables false in
/-- `seek_call`: same validation as `filesize_call`; on success the
position is updated and nothing is returned (the model keeps `pos` as an
argument but a handle's stored position is irrelevant to the claims). -/
def seek_call (env : SysEnv) (fd : Int) (pos : Nat) : Outcome :=
  if fd < 2 ∨ fd ≥ (env.maxFiles : Int) then Outcome.kill
  else match env.files fd.toNat with
    | none => Outcome.crash
    | some h => if inode_is_dir h.inode then Outcome.kill else Outcome.done

/-- `tell_call`: same validation; returns the position. -/
def tell_call (env : SysEnv) (fd : Int) : Outcome :=
  if fd < 2 ∨ fd ≥ (env.maxFiles : Int) then Outcome.kill
  else match env.files fd.toNat with
    | none => Outcome.crash
    | some h => if inode_is_dir h.inode then Outcome.kill else Outcome.ret (h.pos : Int)

/-- `close_call`: descriptors outside `[2, MAX_FILES)` and empty slots kill
the process; otherwise the slot is cleared and `next_fd` lowered. -/
def close_call (env : SysEnv) (fd : Int) : Outcome × SysEnv :=
  if fd < 2 ∨ fd ≥ (env.maxFiles : Int) then (Outcome.kill, env)
  else match env.files fd.toNat with
    | none => (Outcome.kill, env)
    | some _ =>
      (Outcome.done, { env with
        files := fun i => if i = fd.toNat then none else env.files i,
        nextFd := if fd < env.nextFd then fd else env.nextFd })

/-- A directory inode for the C9 failing input: 40 bytes of entry records
in sector 2, inode at sector 5. -/
def c9DirInode : InodeDisk := ⟨fun i => if i = 0 then 2 else 0, 40, 0, 1, 1⟩

/-- Environment for the C9 failing input: fd 2 is an open directory whose
entry bytes are all 7. -/
def c9Env : SysEnv :=
  { maxFiles := 128,
    files := fun i => if i = 2 then some ⟨5, c9DirInode, 0, 0⟩ else none,
    nextFd := 3,
    disk := fun s j => if s = 2 ∧ j < 40 then 7 else 0,
    fm := ⟨fun _ => true, 100⟩ }

set_option maxRecDepth 4000 in
/-- Claim C9 failing input: `write` on a directory descriptor is not an
error — `write_call` has no `is_directory` check, reaches `file_write`,
stores the user's byte into the directory's entry records (byte 0 of sector
2 changes from 7 to 65) and returns 1, while `read`, `filesize`, `seek` and
`tell` on the same descriptor do reject it. -/
theorem write_call_directory_bug :
    (write_call c9Env 2 (fun _ => 65) 1).1 = Outcome.ret 1 ∧
    (write_call c9Env 2 (fun _ => 65) 1).2.disk 2 0 = 65 ∧
    c9Env.disk 2 0 = 7 ∧
    read_call c9Env 2 1 = Outcome.ret (-1) ∧
    filesize_call c9Env 2 = Outcome.kill ∧
    seek_call c9Env 2 0 = Outcome.kill ∧
    tell_call c9Env 2 = Outcome.kill := by decide

/-- Environment for the C10 theorems: `MAX_FILES = 128`, an ordinary open
file at fd 2 and nothing else. -/
def c10Env : SysEnv :=
  { maxFiles := 128,
    files := fun i =>
      if i = 2 then some ⟨6, ⟨fun k => if k = 0 then 3 else 0, 4, 0, 1, 0⟩, 0, 0⟩ else none,
    nextFd := 3,
    disk := fun _ _ => 0,
    fm := ⟨fun _ => true, 100⟩ }

/-- Claim C10, counterexample to the claim as stated: descriptors 0 and 1
lie outside `[2, MAX_FILES)`, but `read` with fd 0 reads the keyboard and
returns `size` (not −1), and `write` with fd 1 writes the console and
returns `size` (not −1). -/
theorem fd_range_counterexample :
    (0 : Int) < 2 ∧ (1 : Int) < 2 ∧
    read_call c10Env 0 3 = Outcome.ret 3 ∧
    read_call c10Env 0 3 ≠ Outcome.ret (-1) ∧
    (write_call c10Env 1 (fun _ => 65) 5).1 = Outcome.ret 5 ∧
    (write_call c10Env 1 (fun _ => 65) 5).1 ≠ Outcome.ret (-1) := by decide

set_option linter.unusedVariables false in
/-- Claim C10 as amended: for every descriptor outside `[2, MAX_FILES)`,
`filesize`, `seek`, `tell` and `close` never return to the caller — they
kill the process with exit status −1 — while `read` returns −1 except for
fd 0 (keyboard read, returns `size`) and `write` returns −1 except for fd 1
(console write, returns `size`). -/
theorem fd_range_validation (env : SysEnv) (fd : Int) (buf : Nat → Nat) (size pos : Nat)
    (hmax : 2 ≤ env.maxFiles)
    (h : fd < 2 ∨ fd ≥ (env.maxFiles : Int)) :
    filesize_call env fd = Outcome.kill ∧
    seek_call env fd pos = Outcome.kill ∧
    tell_call env fd = Outcome.kill ∧
    (close_call env fd).1 = Outcome.kill ∧
    (fd ≠ 0 → read_call env fd size = Outcome.ret (-1)) ∧
    (fd = 0 → read_call env fd size = Outcome.ret (size : Int)) ∧
    (fd ≠ 1 → (write_call env fd buf size).1 = Outcome.ret (-1)) ∧
    (fd = 1 → (write_call env fd buf size).1 = Outcome.ret ((write_to_stdout buf size).2 : Int)) := by
  have hmaxI : (2 : Int) ≤ (env.maxFiles : Int) := by exact_mod_cast hmax
  refine ⟨?_, ?_, ?_, ?_, ?_, ?_, ?_, ?_⟩
  · unfold filesize_call
    rw [if_pos h]
  · unfold seek_call
    rw [if_pos h]
  · unfold tell_call
    rw [if_pos h]
  · unfold close_call
    rw [if_pos h]
  · intro hne
    unfold read_call
    rw [if_pos (show fd = 1 ∨ fd < 0 ∨ fd ≥ (env.maxFiles : Int) by omega)]
  · intro h0
    subst h0
    unfold read_call
    rw [if_neg (show ¬((0 : Int) = 1 ∨ (0 : Int) < 0 ∨ (0 : Int) ≥ (env.maxFiles : Int))
      by omega)]
    rw [if_pos rfl]
  · intro hne
    unfold write_call
    rw [if_pos (show fd ≤ 0 ∨ fd ≥ (env.maxFiles : Int) by omega)]
  · intro h1
    subst h1
    unfold write_call
    rw [if_neg (show ¬((1 : Int) ≤ 0 ∨ (1 : Int) ≥ (env.maxFiles : Int)) by omega)]
    rw [if_pos rfl]

/-- Witness for the amended C10 theorem at fd −5 and fd 200. -/
theorem fd_range_validation_witness :
    ((2 ≤ c10Env.maxFiles) ∧ ((-5 : Int) < 2 ∨ (-5 : Int) ≥ (c10Env.maxFiles : Int))) ∧
    (filesize_call c10Env (-5) = Outcome.kill ∧
     seek_call c10Env (-5) 0 = Outcome.kill ∧
     tell_call c10Env (-5) = Outcome.kill ∧
     (close_call c10Env (-5)).1 = Outcome.kill ∧
     ((-5 : Int) ≠ 0 → read_call c10Env (-5) 3 = Outcome.ret (-1)) ∧
     ((-5 : Int) = 0 → read_call c10Env (-5) 3 = Outcome.ret (3 : Int)) ∧
     ((-5 : Int) ≠ 1 → (write_call c10Env (-5) (fun _ => 65) 3).1 = Outcome.ret (-1)) ∧
     ((-5 : Int) = 1 → (write_call c10Env (-5) (fun _ => 65) 3).1 =
       Outcome.ret ((write_to_stdout (fun _ => 65) 3).2 : Int))) :=
  ⟨⟨by decide, by decide⟩,
   fd_range_validation c10Env (-5) (fun _ => 65) 3 0 (by decide) (by decide)⟩

end OS
